import Mathlib

/-!
Verification of the GitHub events collector (`app.py`).

The program keeps a global in-memory list `events` of normalized event
records, fed by a self-rescheduling poll function `fetch_github_events`,
and serves three metric functions (`average_pr_time`, `count_events`,
`top_repos`) over that list.

Timestamps are UTC datetimes with second precision in the source; we embed
them as integers (seconds since an arbitrary epoch), so that `datetime`
comparison becomes integer comparison and `timedelta.total_seconds()` of a
difference becomes integer subtraction.  Averages (Python floats obtained
by dividing sums of whole seconds) are embedded as rationals.

Python's `Counter` built from an iterable is embedded as an association
list from key to multiplicity whose keys appear in first-occurrence order,
matching `dict` insertion order; `Counter.most_common(n)` is a stable sort
of those items by descending count followed by truncation to `n`.
-/

/-- Normalized event record as stored in the global `events` list:
`{"type": ..., "repo": ..., "created_at": ...}` (app.py lines 71-75). -/
structure EventRecord where
  type : String
  repo : String
  created_at : Int
deriving DecidableEq, Repr

instance : Inhabited EventRecord := ⟨⟨"", "", 0⟩⟩

/-- Constant `POLL_INTERVAL: int = 30` (app.py line 27). -/
def POLL_INTERVAL : Int := 30

/-- Constant `EVENT_RETENTION_MINUTES: int = 120` (app.py line 28). -/
def EVENT_RETENTION_MINUTES : Int := 120

/-- Constant `EVENTS_OF_INTEREST = ["PullRequestEvent", "WatchEvent", "IssuesEvent"]`
(app.py line 29). -/
def EVENTS_OF_INTEREST : List String := ["PullRequestEvent", "WatchEvent", "IssuesEvent"]

/-- Comparison used by `pr_events.sort(key=lambda x: x["created_at"])`
(app.py line 104): order records by their timestamp. -/
def byCreatedAt (a b : EventRecord) : Prop := a.created_at ≤ b.created_at

instance : DecidableRel byCreatedAt := fun a b => Int.decLe a.created_at b.created_at

instance : IsTotal EventRecord byCreatedAt := ⟨fun a b => Int.le_total a.created_at b.created_at⟩

instance : IsTrans EventRecord byCreatedAt := ⟨fun _ _ _ => Int.le_trans⟩

/-- Python's `list.sort` is a stable comparison sort; insertion sort on the
timestamp key is a faithful model (stability included). -/
def sortByCreatedAt (l : List EventRecord) : List EventRecord :=
  List.insertionSort byCreatedAt l

/-- The list comprehension of app.py lines 101-103: the `PullRequestEvent`
records of the given repository. -/
def prEventsOf (events : List EventRecord) (repo_name : String) : List EventRecord :=
  events.filter (fun e => e.type == "PullRequestEvent" && e.repo == repo_name)

/-- Function `average_pr_time(repo_name)` (app.py lines 91-111): filter the global
list to `PullRequestEvent`s of `repo_name`, sort the local copy ascending
by `created_at`, return `None` if fewer than 2 remain, else the mean of the
consecutive differences `pr_events[i] - pr_events[i-1]` in seconds, where
`i` ranges over `range(1, len(pr_events))`. -/
def average_pr_time (events : List EventRecord) (repo_name : String) : Option ℚ :=
  let pr_events := prEventsOf events repo_name
  let pr_events := sortByCreatedAt pr_events
  if pr_events.length < 2 then none
  else
    let time_diffs : List ℚ :=
      (List.range' 1 (pr_events.length - 1)).map
        (fun i => ((pr_events.getD i default).created_at
                    - (pr_events.getD (i - 1) default).created_at : ℤ))
    some (time_diffs.sum / time_diffs.length)

/-- First-occurrence deduplication: the key order of a Python `dict`
(hence `Counter`) built by scanning an iterable left to right. -/
def firstOccurAux : List String → List String → List String
  | [], _ => []
  | x :: xs, seen => if x ∈ seen then firstOccurAux xs seen else x :: firstOccurAux xs (x :: seen)

def firstOccur (l : List String) : List String := firstOccurAux l []

/-- Model of `Counter(iterable)`: association list mapping each key, in
first-occurrence order, to its number of occurrences. -/
def counterList (l : List String) : List (String × Nat) :=
  (firstOccur l).map (fun k => (k, l.count k))

/-- Lookup of a key in a `Counter`'s items; `none` models key absence
(the key not being in `counter.keys()` / the JSON object). -/
def counterLookup (c : List (String × Nat)) (k : String) : Option Nat :=
  (c.find? (fun p => p.1 == k)).map (fun p => p.2)

/-- Function `count_events(offset_minutes)` (app.py lines 114-127): keep events with
`created_at >= now - timedelta(minutes=offset_minutes)` and count them by
type with `Counter`.  `now` (`datetime.now(timezone.utc)`) is passed
explicitly. -/
def count_events (events : List EventRecord) (now : Int) (offset_minutes : Int) :
    List (String × Nat) :=
  let cutoff := now - offset_minutes * 60
  let recent_events := events.filter (fun e => cutoff ≤ e.created_at)
  counterList (recent_events.map (fun e => e.type))

/-- Descending-count comparison used by `Counter.most_common`:
`sorted(items, key=count, reverse=True)`. -/
def byCountDesc (a b : String × Nat) : Prop := b.2 ≤ a.2

instance : DecidableRel byCountDesc := fun a b => Nat.decLe b.2 a.2

instance : IsTotal (String × Nat) byCountDesc := ⟨fun a b => Nat.le_total b.2 a.2⟩

instance : IsTrans (String × Nat) byCountDesc := ⟨fun _ _ _ h h' => Nat.le_trans h' h⟩

/-- Function body of the `top_repos` handler (app.py lines 165-180): filter the global list
to `PullRequestEvent`s, build `Counter(e["repo"] for e in pr_events)`, and
return `repo_counts.most_common(top_n)` as `(repo, event_count)` pairs. -/
def top_repos (events : List EventRecord) (top_n : Nat) : List (String × Nat) :=
  let pr_events := events.filter (fun e => e.type == "PullRequestEvent")
  let repo_counts := counterList (pr_events.map (fun e => e.repo))
  (List.insertionSort byCountDesc repo_counts).take top_n

/-- Spec-side reading of "compute consecutive differences in seconds":
pair each record of the sorted sequence with its successor and subtract
the timestamps. -/
def consecDiffsSeconds (l : List EventRecord) : List ℚ :=
  (l.zip l.tail).map (fun p => ((p.2.created_at - p.1.created_at : ℤ) : ℚ))

/-- Spec-side "arithmetic mean". -/
def arithMean (l : List ℚ) : ℚ := l.sum / l.length

/-- Metric `AveragePRInterval(repo)` written from the spec's words (§4.3): select
records of kind PullRequest for the given repository, sort ascending by
`occurredAt`, compute consecutive differences in seconds, return their
arithmetic mean; "no result" when fewer than 2 qualifying records exist. -/
def AveragePRInterval (events : List EventRecord) (repo : String) : Option ℚ :=
  let q := sortByCreatedAt (prEventsOf events repo)
  if q.length < 2 then none else some (arithMean (consecDiffsSeconds q))

/-- One raw item of the feed's JSON event list, as read by the loop of
app.py lines 68-76: its `type` tag, its `repo.name`, and its `created_at`
timestamp string — embedded as `some t` when `datetime.strptime(...,
"%Y-%m-%dT%H:%M:%SZ")` succeeds with value `t`, and as `none` when the
string is malformed so that `strptime` raises `ValueError`. -/
structure RawEvent where
  type : String
  repo : String
  created_at : Option Int
deriving DecidableEq, Repr

/-- Shape of a decoded `response.json()` (app.py lines 61-68): either a
dict carrying a `"message"` field (structured API error, line 64) or a
list of raw events. -/
inductive Payload where
  | errorObj (message : String)
  | eventList (l : List RawEvent)
deriving DecidableEq

/-- Outcome of `requests.get` + `response.json()` (app.py lines 60-61):
a transport error (`requests.get` raises), a decode error
(`response.json()` raises on malformed JSON), or a decoded payload. -/
inductive FetchResult where
  | transportError
  | decodeError
  | ok (p : Payload)
deriving DecidableEq

/-- The `for event in data` loop of app.py lines 68-76, acting on the
global `events` list (`acc`): events whose type is outside
`EVENTS_OF_INTEREST` are skipped; an interesting event with a malformed
timestamp makes `strptime` raise, aborting the loop (flag `true`) with the
records appended so far kept in place; otherwise the normalized record is
appended and the loop continues. -/
def processLoop : List RawEvent → List EventRecord → List EventRecord × Bool
  | [], acc => (acc, false)
  | e :: rest, acc =>
    if e.type ∈ EVENTS_OF_INTEREST then
      match e.created_at with
      | none => (acc, true)
      | some t => processLoop rest (acc ++ [⟨e.type, e.repo, t⟩])
    else processLoop rest acc

/-- App.py lines 79-80: `events = [e for e in events if e["created_at"] >=
cutoff]` with `cutoff = now - timedelta(minutes=EVENT_RETENTION_MINUTES)`. -/
def prune (now : Int) (l : List EventRecord) : List EventRecord :=
  l.filter (fun e => now - EVENT_RETENTION_MINUTES * 60 ≤ e.created_at)

/-- One invocation of `fetch_github_events` (app.py lines 42-86) as a
function of the stop flag, the fetch outcome, the current time and the
store.  Returns the new store and whether a next cycle is scheduled
(`threading.Timer(...).start()` in the `finally` block, line 86).

* stop flag set on entry (lines 50-51): return before the `try`, so no
  fetch, no append, and no reschedule;
* transport/decode exception: caught at line 82, store untouched,
  `finally` reschedules;
* structured error payload (lines 64-66): early `return` before the loop,
  store untouched, `finally` still reschedules;
* event list: run the loop; if it raises (malformed timestamp), the
  `except` swallows the error after the partial appends, skipping the
  prune; otherwise prune with the post-loop `now`. -/
def pollCycle (stop : Bool) (fetch : FetchResult) (now : Int)
    (store : List EventRecord) : List EventRecord × Bool :=
  if stop then (store, false)
  else
    match fetch with
    | .transportError => (store, true)
    | .decodeError => (store, true)
    | .ok (.errorObj _) => (store, true)
    | .ok (.eventList l) =>
      match processLoop l store with
      | (acc, true) => (acc, true)
      | (acc, false) => (prune now acc, true)

/-- A chain of poll cycles: each entry gives the stop-flag value observed
at the cycle's start, the fetch outcome and the time of that cycle.  The
chain ends as soon as a cycle does not reschedule. -/
def runCycles : List (Bool × FetchResult × Int) → List EventRecord → List EventRecord
  | [], store => store
  | (stop, fetch, now) :: rest, store =>
    match pollCycle stop fetch now store with
    | (store', true) => runCycles rest store'
    | (store', false) => store'

/-- The successive values of the global `events` list while the loop of
app.py lines 68-76 appends a (fully valid, already filtered) batch one
record at a time: under the GIL each single `events.append` is atomic, so
a concurrent reader observes exactly one of these lists. -/
def appendStates : List EventRecord → List EventRecord → List (List EventRecord)
  | store, [] => [store]
  | store, e :: rest => store :: appendStates (store ++ [e]) rest

/-- Every store value a concurrent reader can observe during one
successful append-then-prune cycle over `batch`: the states during the
append loop, then the state after the atomic reassignment of line 80. -/
def observableStates (store batch : List EventRecord) (now : Int) :
    List (List EventRecord) :=
  appendStates store batch ++ [prune now (store ++ batch)]

/-- Variant of `average_pr_time` with the global `events` list threaded explicitly:
the second component is the value of the global list after the call.  The
comprehension of lines 101-103 builds a fresh local list and line 104
sorts that local list, so no statement of the function rebinds or mutates
the global. -/
def average_pr_time_run (events : List EventRecord) (repo_name : String) :
    Option ℚ × List EventRecord :=
  let pr_events := prEventsOf events repo_name
  let pr_events := sortByCreatedAt pr_events
  if pr_events.length < 2 then (none, events)
  else
    let time_diffs : List ℚ :=
      (List.range' 1 (pr_events.length - 1)).map
        (fun i => ((pr_events.getD i default).created_at
                    - (pr_events.getD (i - 1) default).created_at : ℤ))
    (some (time_diffs.sum / time_diffs.length), events)

/-- Variant of `count_events` with the global list threaded explicitly (lines
114-127: a comprehension and a `Counter`, both fresh objects). -/
def count_events_run (events : List EventRecord) (now : Int) (offset_minutes : Int) :
    (List (String × Nat)) × List EventRecord :=
  (count_events events now offset_minutes, events)

/-- The `top_repos` handler body with the global list threaded explicitly
(lines 174-179: a comprehension, a `Counter` and `most_common`, all fresh
objects). -/
def top_repos_run (events : List EventRecord) (top_n : Nat) :
    (List (String × Nat)) × List EventRecord :=
  (top_repos events top_n, events)

/-- Sample time used by the concrete instances below. -/
def demoNow : Int := 1000

/-- Three PR events for repo `o/r` at `t0`, `t0+10s`, `t0+30s`. -/
def demoPR : List EventRecord :=
  [⟨"PullRequestEvent", "o/r", 100⟩, ⟨"PullRequestEvent", "o/r", 110⟩,
   ⟨"PullRequestEvent", "o/r", 130⟩]

/-- Five PR events for repo `a`: three inside the 10-minute window ending
at `demoNow`, two outside it. -/
def demoWindow : List EventRecord :=
  [⟨"PullRequestEvent", "a", 1000⟩, ⟨"PullRequestEvent", "a", 900⟩,
   ⟨"PullRequestEvent", "a", 350⟩, ⟨"PullRequestEvent", "a", 300⟩,
   ⟨"PullRequestEvent", "a", 999⟩]

/-- PR events for repos `a` (1) and `b` (2), plus a watch event. -/
def demoTop : List EventRecord :=
  [⟨"PullRequestEvent", "a", 1⟩, ⟨"PullRequestEvent", "b", 2⟩,
   ⟨"PullRequestEvent", "b", 3⟩, ⟨"WatchEvent", "c", 4⟩]

/-- A raw batch whose records are all well-formed: one interesting event
and one event outside the interest set. -/
def demoRawOK : List RawEvent :=
  [⟨"PullRequestEvent", "a/b", some 900⟩, ⟨"ForkEvent", "c/d", some 10⟩]

/-- A raw batch whose first record is valid and interesting and whose
second record is interesting but carries a malformed timestamp. -/
def demoRawBad : List RawEvent :=
  [⟨"PullRequestEvent", "a/b", some 900⟩, ⟨"IssuesEvent", "c/d", none⟩]

/-- First record of a two-record batch. -/
def demoRec1 : EventRecord := ⟨"PullRequestEvent", "a/b", 900⟩

/-- Second record of a two-record batch. -/
def demoRec2 : EventRecord := ⟨"WatchEvent", "c/d", 950⟩

/-- The distinct repositories that have at least one PullRequest record:
the groups formed by `Counter(e["repo"] for e in pr_events)`, in
first-occurrence order. -/
def prRepoGroups (events : List EventRecord) : List String :=
  firstOccur ((events.filter (fun e => e.type == "PullRequestEvent")).map (fun e => e.repo))

theorem isPre_rfl {α : Type _} (l : List α) : l <+: l := ⟨[], List.append_nil l⟩

theorem isPre_append {α : Type _} (l t : List α) : l <+: l ++ t := ⟨t, rfl⟩

theorem map_range'_shift {α : Type _} (g : Nat → α) (n : Nat) :
    ∀ s, (List.range' (s + 1) n).map g = (List.range' s n).map (fun i => g (i + 1)) := by
  induction n with
  | zero => intro s; rfl
  | succ n ih =>
    intro s
    rw [List.range'_succ, List.range'_succ, List.map_cons, List.map_cons, ih (s + 1)]

/-- The Python-style indexed consecutive differences
(`for i in range(1, len(l))`, `l[i] - l[i-1]`) coincide with the zip-based
consecutive differences of the spec reading. -/
theorem indexDiffs_eq_consecDiffs :
    ∀ l : List EventRecord,
      (List.range' 1 (l.length - 1)).map
        (fun i => (((l.getD i default).created_at
                     - (l.getD (i - 1) default).created_at : ℤ) : ℚ))
      = consecDiffsSeconds l := by
  intro l
  induction l with
  | nil => rfl
  | cons a t ih =>
    cases t with
    | nil => rfl
    | cons b t' =>
      have hlen : (a :: b :: t').length - 1 = t'.length + 1 := by simp
      rw [hlen, List.range'_succ, List.map_cons, map_range'_shift]
      have hcongr :
          (List.range' 1 t'.length).map
              (fun i => (fun i => (((( a :: b :: t').getD i default).created_at
                     - (((a :: b :: t').getD (i - 1) default)).created_at : ℤ) : ℚ)) (i + 1))
            = (List.range' 1 t'.length).map
              (fun i => ((((b :: t').getD i default).created_at
                     - (((b :: t').getD (i - 1) default)).created_at : ℤ) : ℚ)) := by
        apply List.map_congr_left
        intro i hi
        rcases List.mem_range'.mp hi with ⟨j, _, rfl⟩
        have hj : 1 + 1 * j = j + 1 := by omega
        rw [hj]
        simp [List.getD_cons_succ]
      rw [hcongr]
      have ht : t'.length = (b :: t').length - 1 := by simp
      rw [ht, ih]
      simp [consecDiffsSeconds]

/-- In a sorted list, every adjacent pair is related. -/
theorem sorted_rel_zip_tail {α : Type _} {r : α → α → Prop} :
    ∀ l : List α, List.Sorted r l → ∀ p ∈ l.zip l.tail, r p.1 p.2 := by
  intro l
  induction l with
  | nil => intro _ p hp; simp at hp
  | cons a t ih =>
    intro h p hp
    cases t with
    | nil => simp at hp
    | cons b t' =>
      rcases List.sorted_cons.mp h with ⟨ha, ht⟩
      simp only [List.tail_cons, List.zip_cons_cons, List.mem_cons] at hp
      rcases hp with rfl | hp'
      · exact ha b (by simp)
      · exact ih ht p hp'

theorem mem_firstOccurAux (a : String) (l : List String) :
    ∀ seen, (a ∈ firstOccurAux l seen ↔ a ∈ l ∧ a ∉ seen) := by
  induction l with
  | nil => intro seen; simp [firstOccurAux]
  | cons x xs ih =>
    intro seen
    by_cases hx : x ∈ seen
    · rw [firstOccurAux, if_pos hx, ih seen]
      constructor
      · rintro ⟨h1, h2⟩; exact ⟨List.mem_cons_of_mem _ h1, h2⟩
      · rintro ⟨h1, h2⟩
        rcases List.mem_cons.mp h1 with rfl | h1'
        · exact absurd hx h2
        · exact ⟨h1', h2⟩
    · rw [firstOccurAux, if_neg hx]
      by_cases hax : a = x
      · subst hax; simp [hx]
      · simp only [List.mem_cons, ih (x :: seen)]
        tauto

theorem mem_firstOccur (a : String) (l : List String) : a ∈ firstOccur l ↔ a ∈ l := by
  rw [firstOccur, mem_firstOccurAux]; simp

theorem nodup_firstOccurAux (l : List String) : ∀ seen, (firstOccurAux l seen).Nodup := by
  induction l with
  | nil => intro seen; simp [firstOccurAux]
  | cons x xs ih =>
    intro seen
    by_cases hx : x ∈ seen
    · rw [firstOccurAux, if_pos hx]; exact ih seen
    · rw [firstOccurAux, if_neg hx]
      refine List.nodup_cons.mpr ⟨fun hmem => ?_, ih (x :: seen)⟩
      exact ((mem_firstOccurAux x xs (x :: seen)).mp hmem).2 (List.mem_cons_self x seen)

theorem nodup_firstOccur (l : List String) : (firstOccur l).Nodup :=
  nodup_firstOccurAux l []

theorem find?_beq_self (k : String) :
    ∀ l : List String, l.find? (fun x => x == k) = if k ∈ l then some k else none := by
  intro l
  induction l with
  | nil => rfl
  | cons x xs ih =>
    by_cases hx : x = k
    · subst hx
      rw [List.find?_cons_of_pos _ (by simp)]
      simp
    · rw [List.find?_cons_of_neg _ (by simp [hx]), ih]
      by_cases hk : k ∈ xs
      · rw [if_pos hk, if_pos (List.mem_cons_of_mem _ hk)]
      · rw [if_neg hk, if_neg (by
          intro h
          rcases List.mem_cons.mp h with rfl | h'
          · exact hx rfl
          · exact hk h')]

/-- Looking a key up in `Counter(l)`: absent when it never occurs in `l`,
otherwise mapped to its number of occurrences. -/
theorem counterLookup_counterList (l : List String) (k : String) :
    counterLookup (counterList l) k
      = if l.count k = 0 then none else some (l.count k) := by
  rw [counterLookup, counterList, List.find?_map]
  have hcomp :
      ((fun p : String × Nat => p.1 == k) ∘ fun k' => (k', l.count k'))
        = fun x => x == k := rfl
  rw [hcomp, find?_beq_self]
  simp only [mem_firstOccur]
  by_cases hk : k ∈ l
  · rw [if_pos hk]
    have hpos : 0 < l.count k := List.count_pos_iff.mpr hk
    rw [if_neg (by omega)]
    rfl
  · rw [if_neg hk, if_pos (by simpa using List.count_eq_zero.mpr hk)]
    rfl

/-- Counting a key among the images under `f` of the records kept by a
filter equals the number of records passing the filter whose image is the
key. -/
theorem count_map_filter (f : EventRecord → String) (p : EventRecord → Bool) (k : String) :
    ∀ l : List EventRecord,
      ((l.filter p).map f).count k = (l.filter (fun e => p e && f e == k)).length := by
  intro l
  induction l with
  | nil => rfl
  | cons a t ih =>
    by_cases hp : p a
    · by_cases hf : f a = k
      · simp [hp, hf, List.count_cons, ih]
      · simp [hp, hf, List.count_cons, ih]
    · simp [hp, ih]

theorem count_mem_counterList (l : List String) (k : String) (h : k ∈ l) :
    (k, l.count k) ∈ counterList l := by
  rw [counterList]
  exact List.mem_map.mpr ⟨k, (mem_firstOccur k l).mpr h, rfl⟩

theorem mem_prRepos_iff (events : List EventRecord) (k : String) :
    k ∈ (events.filter (fun e => e.type == "PullRequestEvent")).map (fun e => e.repo)
      ↔ 0 < (prEventsOf events k).length := by
  constructor
  · intro h
    have hc := List.count_pos_iff.mpr h
    rwa [count_map_filter] at hc
  · intro h
    refine List.count_pos_iff.mp ?_
    rwa [count_map_filter]

theorem prRepos_count_eq (events : List EventRecord) (k : String) :
    ((events.filter (fun e => e.type == "PullRequestEvent")).map (fun e => e.repo)).count k
      = (prEventsOf events k).length := by
  rw [count_map_filter]
  rfl

theorem top_repos_length (events : List EventRecord) (n : Nat) :
    (top_repos events n).length = min n (prRepoGroups events).length := by
  simp only [top_repos, List.length_take]
  congr 1
  rw [(List.perm_insertionSort byCountDesc _).length_eq, counterList, List.length_map]
  rfl

theorem top_repos_complete (events : List EventRecord) (n : Nat) (k : String)
    (hk : 0 < (prEventsOf events k).length) (hn : (prRepoGroups events).length ≤ n) :
    (k, (prEventsOf events k).length) ∈ top_repos events n := by
  have hkrepos : k ∈ (events.filter (fun e => e.type == "PullRequestEvent")).map
      (fun e => e.repo) := (mem_prRepos_iff events k).mpr hk
  have hmem := count_mem_counterList _ k hkrepos
  have hsortmem : (k, ((events.filter (fun e => e.type == "PullRequestEvent")).map
        (fun e => e.repo)).count k)
      ∈ List.insertionSort byCountDesc
          (counterList ((events.filter (fun e => e.type == "PullRequestEvent")).map
            (fun e => e.repo))) :=
    (List.perm_insertionSort byCountDesc _).mem_iff.mpr hmem
  have hlen : (List.insertionSort byCountDesc
      (counterList ((events.filter (fun e => e.type == "PullRequestEvent")).map
        (fun e => e.repo)))).length ≤ n := by
    rw [(List.perm_insertionSort byCountDesc _).length_eq, counterList, List.length_map]
    exact hn
  rw [prRepos_count_eq] at hsortmem
  simp only [top_repos]
  rw [List.take_of_length_le hlen]
  exact hsortmem

theorem top_repos_topness (events : List EventRecord) (n : Nat)
    (p : String × Nat) (hp : p ∈ top_repos events n) (k : String)
    (hk : k ∉ (top_repos events n).map (fun q => q.1)) :
    (prEventsOf events k).length ≤ p.2 := by
  by_cases h0 : (prEventsOf events k).length = 0
  · rw [h0]; exact Nat.zero_le _
  · have hkrepos : k ∈ (events.filter (fun e => e.type == "PullRequestEvent")).map
        (fun e => e.repo) := (mem_prRepos_iff events k).mpr (Nat.pos_of_ne_zero h0)
    have hmem := count_mem_counterList _ k hkrepos
    have hsortmem : (k, ((events.filter (fun e => e.type == "PullRequestEvent")).map
          (fun e => e.repo)).count k)
        ∈ List.insertionSort byCountDesc
            (counterList ((events.filter (fun e => e.type == "PullRequestEvent")).map
              (fun e => e.repo))) :=
      (List.perm_insertionSort byCountDesc _).mem_iff.mpr hmem
    rw [prRepos_count_eq] at hsortmem
    simp only [top_repos] at hp hk
    rw [← List.take_append_drop n (List.insertionSort byCountDesc
      (counterList ((events.filter (fun e => e.type == "PullRequestEvent")).map
        (fun e => e.repo))))] at hsortmem
    have hsorted := List.sorted_insertionSort byCountDesc
      (counterList ((events.filter (fun e => e.type == "PullRequestEvent")).map
        (fun e => e.repo)))
    rw [← List.take_append_drop n (List.insertionSort byCountDesc
      (counterList ((events.filter (fun e => e.type == "PullRequestEvent")).map
        (fun e => e.repo))))] at hsorted
    have hcross := (List.pairwise_append.mp hsorted).2.2
    rcases List.mem_append.mp hsortmem with h | h
    · exact absurd (List.mem_map.mpr ⟨_, h, rfl⟩) hk
    · exact hcross p hp _ h

theorem processLoop_types :
    ∀ (l : List RawEvent) (acc : List EventRecord),
      (∀ e ∈ acc, e.type ∈ EVENTS_OF_INTEREST) →
      ∀ e ∈ (processLoop l acc).1, e.type ∈ EVENTS_OF_INTEREST := by
  intro l
  induction l with
  | nil => intro acc hacc e he; exact hacc e he
  | cons r rest ih =>
    intro acc hacc e he
    by_cases hr : r.type ∈ EVENTS_OF_INTEREST
    · rw [processLoop, if_pos hr] at he
      cases hts : r.created_at with
      | none => rw [hts] at he; exact hacc e he
      | some t =>
        rw [hts] at he
        refine ih (acc ++ [⟨r.type, r.repo, t⟩]) ?_ e he
        intro e' he'
        rcases List.mem_append.mp he' with h | h
        · exact hacc e' h
        · rcases List.mem_singleton.mp h with rfl
          exact hr
    · rw [processLoop, if_neg hr] at he
      exact ih acc hacc e he

theorem processLoop_extends :
    ∀ (l : List RawEvent) (acc : List EventRecord), acc <+: (processLoop l acc).1 := by
  intro l
  induction l with
  | nil => intro acc; exact isPre_rfl _
  | cons r rest ih =>
    intro acc
    by_cases hr : r.type ∈ EVENTS_OF_INTEREST
    · rw [processLoop, if_pos hr]
      cases r.created_at with
      | none => exact isPre_rfl _
      | some t => exact (isPre_append acc [⟨r.type, r.repo, t⟩]).trans (ih _)
    · rw [processLoop, if_neg hr]
      exact ih acc

theorem pollCycle_types (stop : Bool) (fetch : FetchResult) (now : Int)
    (store : List EventRecord) (h : ∀ e ∈ store, e.type ∈ EVENTS_OF_INTEREST) :
    ∀ e ∈ (pollCycle stop fetch now store).1, e.type ∈ EVENTS_OF_INTEREST := by
  intro e he
  cases stop with
  | true => exact h e he
  | false =>
    cases fetch with
    | transportError => exact h e he
    | decodeError => exact h e he
    | ok p =>
      cases p with
      | errorObj m => exact h e he
      | eventList l =>
        have hloop := processLoop_types l store h
        simp only [pollCycle, Bool.false_eq_true, if_false] at he
        rcases hpl : processLoop l store with ⟨acc, flag⟩
        rw [hpl] at he hloop
        cases flag with
        | true => exact hloop e he
        | false =>
          rcases List.mem_filter.mp he with ⟨hmem, -⟩
          exact hloop e hmem

theorem runCycles_types :
    ∀ (inputs : List (Bool × FetchResult × Int)) (store : List EventRecord),
      (∀ e ∈ store, e.type ∈ EVENTS_OF_INTEREST) →
      ∀ e ∈ runCycles inputs store, e.type ∈ EVENTS_OF_INTEREST := by
  intro inputs
  induction inputs with
  | nil => intro store h e he; exact h e he
  | cons c rest ih =>
    rcases c with ⟨stop, fetch, now⟩
    intro store h e he
    have hcycle := pollCycle_types stop fetch now store h
    rw [runCycles] at he
    rcases hpc : pollCycle stop fetch now store with ⟨store', flag⟩
    rw [hpc] at he hcycle
    cases flag with
    | true => exact ih store' hcycle e he
    | false => exact hcycle e he

theorem appendStates_extends :
    ∀ (batch store s : List EventRecord),
      s ∈ appendStates store batch → store <+: s ∧ s <+: store ++ batch := by
  intro batch
  induction batch with
  | nil =>
    intro store s hs
    rw [appendStates, List.mem_singleton] at hs
    subst hs
    exact ⟨isPre_rfl _, by simp⟩
  | cons e rest ih =>
    intro store s hs
    rw [appendStates] at hs
    rcases List.mem_cons.mp hs with rfl | hs'
    · exact ⟨isPre_rfl _, isPre_append _ _⟩
    · rcases ih (store ++ [e]) s hs' with ⟨h1, h2⟩
      refine ⟨(isPre_append store [e]).trans h1, ?_⟩
      have : (store ++ [e]) ++ rest = store ++ e :: rest := by simp
      rw [this] at h2
      exact h2

theorem average_eq_spec (events : List EventRecord) (repo : String) :
    average_pr_time events repo = AveragePRInterval events repo := by
  simp only [average_pr_time, AveragePRInterval, arithMean, indexDiffs_eq_consecDiffs]

theorem average_none_iff (events : List EventRecord) (repo : String) :
    average_pr_time events repo = none ↔ (prEventsOf events repo).length < 2 := by
  have hlen : (sortByCreatedAt (prEventsOf events repo)).length
      = (prEventsOf events repo).length :=
    (List.perm_insertionSort byCreatedAt _).length_eq
  rw [← hlen]
  by_cases h : (sortByCreatedAt (prEventsOf events repo)).length < 2
  · simp [average_pr_time, h]
  · simp [average_pr_time, h]

theorem consecDiffs_nonneg (l : List EventRecord) (hs : List.Sorted byCreatedAt l) :
    ∀ x ∈ consecDiffsSeconds l, 0 ≤ x := by
  intro x hx
  rw [consecDiffsSeconds] at hx
  rcases List.mem_map.mp hx with ⟨p, hp, rfl⟩
  have hr : p.1.created_at ≤ p.2.created_at := sorted_rel_zip_tail l hs p hp
  have h0 : (0 : ℤ) ≤ p.2.created_at - p.1.created_at := by omega
  exact_mod_cast h0

/-- Claim C1: after every successful poll cycle (batch append followed by
prune), every record retained in the event store satisfies
`occurredAt >= now - retentionWindow`, where `now` is the time at which
pruning ran: for all stores and all appended batches, no record older than
the cutoff remains after the cycle completes. -/
theorem retention_after_successful_cycle
    (l : List RawEvent) (now : Int) (store acc : List EventRecord)
    (hok : processLoop l store = (acc, false)) :
    ∀ e ∈ (pollCycle false (.ok (.eventList l)) now store).1,
      now - EVENT_RETENTION_MINUTES * 60 ≤ e.created_at := by
  intro e he
  simp only [pollCycle, Bool.false_eq_true, if_false, hok, prune] at he
  rcases List.mem_filter.mp he with ⟨-, hcond⟩
  exact of_decide_eq_true hcond

theorem retention_after_successful_cycle_witness :
    processLoop demoRawOK [] = ([⟨"PullRequestEvent", "a/b", 900⟩], false) ∧
    demoNow - EVENT_RETENTION_MINUTES * 60
      ≤ (⟨"PullRequestEvent", "a/b", 900⟩ : EventRecord).created_at :=
  ⟨by decide,
   retention_after_successful_cycle demoRawOK demoNow []
     [⟨"PullRequestEvent", "a/b", 900⟩] (by decide)
     ⟨"PullRequestEvent", "a/b", 900⟩ (by decide)⟩

/-- Claim C2: `average_pr_time` implements `AveragePRInterval`: it selects
the PullRequest records of the repository, sorts them ascending by
timestamp, and returns the arithmetic mean of the consecutive differences
in seconds when at least 2 qualifying records exist, and `None` (a "no
result" value, not an error) when fewer than 2 exist; in particular, for
PR events at `t0`, `t0+10s`, `t0+30s` the result is `15.0` seconds. -/
theorem average_pr_time_correct :
    (∀ (events : List EventRecord) (repo : String),
       average_pr_time events repo = AveragePRInterval events repo ∧
       (average_pr_time events repo = none ↔ (prEventsOf events repo).length < 2)) ∧
    average_pr_time demoPR "o/r" = some 15 :=
  ⟨fun events repo => ⟨average_eq_spec events repo, average_none_iff events repo⟩,
   by
    norm_num [demoPR, average_pr_time, prEventsOf, sortByCreatedAt, List.insertionSort,
      List.orderedInsert, List.range', byCreatedAt]⟩

/-- Claim C10: whenever `average_pr_time` returns a value (at least 2
qualifying PullRequest records exist), that value is non-negative, because
the records are sorted ascending by timestamp before consecutive
differences are taken. -/
theorem average_pr_time_nonneg (events : List EventRecord) (repo : String) (q : ℚ)
    (h : average_pr_time events repo = some q) : 0 ≤ q := by
  rw [average_eq_spec, AveragePRInterval] at h
  by_cases hlt : (sortByCreatedAt (prEventsOf events repo)).length < 2
  · simp [hlt] at h
  · rw [if_neg hlt, Option.some_inj] at h
    subst h
    rw [arithMean]
    apply div_nonneg
    · exact List.sum_nonneg
        (consecDiffs_nonneg _ (List.sorted_insertionSort byCreatedAt _))
    · exact Nat.cast_nonneg _

theorem average_pr_time_nonneg_witness : (0 : ℚ) ≤ 15 :=
  average_pr_time_nonneg demoPR "o/r" 15
    (by
      norm_num [demoPR, average_pr_time, prEventsOf, sortByCreatedAt, List.insertionSort,
        List.orderedInsert, List.range', byCreatedAt])

/-- Claim C4: `count_events(w)` maps each event kind to the number of
retained records of that kind with `occurredAt >= now - w` minutes, and
kinds with zero matching records are absent from the result; in
particular, with 3 PullRequest events inside a 10-minute window and 2
outside, the count for PullRequest is 3. -/
theorem count_events_correct :
    (∀ (events : List EventRecord) (now w : Int) (k : String),
       counterLookup (count_events events now w) k =
         if (events.filter
              (fun e => decide (now - w * 60 ≤ e.created_at) && e.type == k)).length = 0
         then none
         else some (events.filter
              (fun e => decide (now - w * 60 ≤ e.created_at) && e.type == k)).length) ∧
    counterLookup (count_events demoWindow demoNow 10) "PullRequestEvent" = some 3 :=
  ⟨fun events now w k => by
    simp only [count_events]
    rw [counterLookup_counterList, count_map_filter],
   by decide⟩

/-- Claim C5: `top_repos(n)` considers only records of kind PullRequest,
groups them by repository, counts each group, and returns a sequence of
`(repo, count)` pairs — sorted in descending order of count, with distinct
repositories, each count the exact number of PullRequest records of that
repository — that is the truncation to at most `n` entries of the full
descending-sorted group list: its length is `min n` (number of groups),
when there are at most `n` groups every repository with a PullRequest
record appears with its exact count, and no omitted repository has a
higher count than any included entry. -/
theorem top_repos_correct (events : List EventRecord) (n : Nat) :
    (top_repos events n).length ≤ n ∧
    List.Sorted byCountDesc (top_repos events n) ∧
    ((top_repos events n).map (fun p => p.1)).Nodup ∧
    (∀ p ∈ top_repos events n,
      p.2 = (prEventsOf events p.1).length ∧ 0 < p.2) ∧
    (top_repos events n).length = min n (prRepoGroups events).length ∧
    (∀ k : String, 0 < (prEventsOf events k).length → (prRepoGroups events).length ≤ n →
      (k, (prEventsOf events k).length) ∈ top_repos events n) ∧
    ∀ p ∈ top_repos events n, ∀ k : String,
      k ∉ (top_repos events n).map (fun q => q.1) →
      (prEventsOf events k).length ≤ p.2 := by
  have hkeys :
      ((counterList ((events.filter (fun e => e.type == "PullRequestEvent")).map
          (fun e => e.repo))).map (fun p => p.1))
        = firstOccur ((events.filter (fun e => e.type == "PullRequestEvent")).map
          (fun e => e.repo)) := by
    rw [counterList, List.map_map]
    exact List.map_id _
  refine ⟨?_, ?_, ?_, ?_, top_repos_length events n,
    fun k hk hn => top_repos_complete events n k hk hn,
    fun p hp k hknot => top_repos_topness events n p hp k hknot⟩
  · simp only [top_repos, List.length_take]
    exact Nat.min_le_left _ _
  · simp only [top_repos]
    exact (List.sorted_insertionSort byCountDesc _).sublist (List.take_sublist _ _)
  · simp only [top_repos, List.map_take]
    apply List.Sublist.nodup (List.take_sublist _ _)
    have hperm := (List.perm_insertionSort byCountDesc
      (counterList ((events.filter (fun e => e.type == "PullRequestEvent")).map
        (fun e => e.repo)))).map (fun p => p.1)
    rw [hperm.nodup_iff, hkeys]
    exact nodup_firstOccur _
  · intro p hp
    have hmem : p ∈ counterList ((events.filter (fun e => e.type == "PullRequestEvent")).map
        (fun e => e.repo)) := by
      simp only [top_repos] at hp
      exact (List.perm_insertionSort byCountDesc _).subset
        ((List.take_sublist _ _).subset hp)
    rw [counterList] at hmem
    rcases List.mem_map.mp hmem with ⟨k, hk, rfl⟩
    have hcount := count_map_filter (fun e => e.repo)
      (fun e => e.type == "PullRequestEvent") k events
    constructor
    · rw [hcount]; rfl
    · have hkl : k ∈ (events.filter (fun e => e.type == "PullRequestEvent")).map
          (fun e => e.repo) := (mem_firstOccur _ _).mp hk
      exact List.count_pos_iff.mpr hkl

theorem top_repos_correct_witness :
    (top_repos demoTop 2).length ≤ 2 ∧
    (("b", 2) : String × Nat).2 = (prEventsOf demoTop "b").length ∧
    0 < (("b", 2) : String × Nat).2 ∧
    (top_repos demoTop 2).length = min 2 (prRepoGroups demoTop).length ∧
    ("b", (prEventsOf demoTop "b").length) ∈ top_repos demoTop 2 ∧
    (prEventsOf demoTop "zzz").length ≤ (("b", 2) : String × Nat).2 :=
  ⟨(top_repos_correct demoTop 2).1,
   ((top_repos_correct demoTop 2).2.2.2.1 ("b", 2) (by decide)).1,
   ((top_repos_correct demoTop 2).2.2.2.1 ("b", 2) (by decide)).2,
   (top_repos_correct demoTop 2).2.2.2.2.1,
   (top_repos_correct demoTop 2).2.2.2.2.2.1 "b" (by decide) (by decide),
   (top_repos_correct demoTop 2).2.2.2.2.2.2 ("b", 2) (by decide) "zzz" (by decide)⟩

/-- Refutation of claim C3 as stated: during one append-then-prune cycle
over the two-record batch `[demoRec1, demoRec2]` starting from the empty
store, the state `[demoRec1]` — the global list between the first and the
second `events.append` of the loop — is observable by a concurrent reader
(each append is a separate atomic operation on the shared list; no lock or
snapshot isolates the batch), and it contains the first record of the
batch but not the second: the reader sees neither none nor all of the
cycle's batch. -/
theorem snapshot_partial_batch_cex :
    [demoRec1] ∈ observableStates [] [demoRec1, demoRec2] demoNow ∧
    demoRec1 ∈ [demoRec1] ∧ demoRec2 ∉ [demoRec1] := by decide

/-- Claim C3 amended: a reader running concurrently with a poll cycle's
append-then-prune can observe a partially-appended batch; what it observes
is always the pre-cycle store extended by some prefix of the cycle's batch
(individual appends are atomic and in order), or — after the atomic
reassignment of line 80 — the fully pruned result. -/
theorem snapshot_prefix_of_batch (store batch : List EventRecord) (now : Int) :
    ∀ s ∈ observableStates store batch now,
      (store <+: s ∧ s <+: store ++ batch) ∨ s = prune now (store ++ batch) := by
  intro s hs
  rw [observableStates] at hs
  rcases List.mem_append.mp hs with h | h
  · exact Or.inl (appendStates_extends batch store s h)
  · rw [List.mem_singleton] at h
    exact Or.inr h

theorem snapshot_prefix_of_batch_witness :
    (([] : List EventRecord) <+: [demoRec1] ∧
      [demoRec1] <+: [] ++ [demoRec1, demoRec2]) ∨
    [demoRec1] = prune demoNow ([] ++ [demoRec1, demoRec2]) :=
  snapshot_prefix_of_batch [] [demoRec1, demoRec2] demoNow [demoRec1] (by decide)

/-- Refutation of claim C6 as stated: a poll cycle that encounters a
decode failure is not always left without effect on the store.  Here the
batch's first record is valid and interesting; its second record is
interesting but its timestamp string is malformed, so `strptime` raises
`ValueError` mid-loop (a decode failure of the cycle).  The `except`
swallows the error after the first record was already appended: the store
went from `[]` to one record, so ingestion was not skipped entirely and
the store was changed by the failing cycle (and the prune step was
skipped). -/
theorem error_cycle_changes_store_cex :
    pollCycle false (.ok (.eventList demoRawBad)) demoNow []
      = ([⟨"PullRequestEvent", "a/b", 900⟩], true) ∧
    ([⟨"PullRequestEvent", "a/b", 900⟩] : List EventRecord) ≠ ([] : List EventRecord) := by
  decide

/-- Claim C6 amended: when the failure is detected before any record is
processed — a transport failure, a JSON decode failure of the response, or
a structured error payload — the cycle's ingestion is skipped entirely and
the store is unchanged; the failure is swallowed inside
`fetch_github_events` (never surfaced to callers of the metrics functions)
and the next cycle is still scheduled.  A per-record decode failure
partway through the batch, however, keeps the records of the batch
appended before the failure (the store is only extended, never corrupted)
and skips the prune; that cycle also reschedules and surfaces nothing. -/
theorem error_cycle_amended (now : Int) (store : List EventRecord) (m : String)
    (l : List RawEvent) (acc : List EventRecord) :
    pollCycle false .transportError now store = (store, true) ∧
    pollCycle false .decodeError now store = (store, true) ∧
    pollCycle false (.ok (.errorObj m)) now store = (store, true) ∧
    (processLoop l store = (acc, true) →
      pollCycle false (.ok (.eventList l)) now store = (acc, true) ∧ store <+: acc) := by
  refine ⟨rfl, rfl, rfl, fun herr => ⟨?_, ?_⟩⟩
  · simp only [pollCycle, Bool.false_eq_true, if_false, herr]
  · have := processLoop_extends l store
    rw [herr] at this
    exact this

theorem error_cycle_amended_witness :
    pollCycle false (.ok (.eventList demoRawBad)) demoNow []
        = ([⟨"PullRequestEvent", "a/b", 900⟩], true) ∧
    ([] : List EventRecord) <+: [⟨"PullRequestEvent", "a/b", 900⟩] :=
  (error_cycle_amended demoNow [] "" demoRawBad
    [⟨"PullRequestEvent", "a/b", 900⟩]).2.2.2 (by decide)

/-- Claim C7: if the stop signal is set when a poll cycle starts, that
invocation performs no fetch and no append (the store is unchanged) and
schedules no further cycle — so once the signal is observed at a cycle
boundary, the chain of cycles ends and no further ingestion ever occurs,
whatever cycles were queued after it. -/
theorem stop_signal_halts_polling (fetch : FetchResult) (now : Int)
    (rest : List (Bool × FetchResult × Int)) (store : List EventRecord) :
    pollCycle true fetch now store = (store, false) ∧
    runCycles ((true, fetch, now) :: rest) store = store := by
  constructor
  · rfl
  · simp [runCycles, pollCycle]

/-- Claim C8: events whose kind is outside the interest set
`{PullRequestEvent, WatchEvent, IssuesEvent}` are never present in the
store: for every sequence of poll cycles starting from the empty store,
every retained record's kind belongs to the interest set. -/
theorem only_interesting_kinds_stored (inputs : List (Bool × FetchResult × Int)) :
    ∀ e ∈ runCycles inputs [], e.type ∈ EVENTS_OF_INTEREST :=
  runCycles_types inputs [] (by simp)

theorem only_interesting_kinds_stored_witness :
    (⟨"PullRequestEvent", "a/b", 900⟩ : EventRecord).type ∈ EVENTS_OF_INTEREST :=
  only_interesting_kinds_stored [(false, .ok (.eventList demoRawOK), demoNow)]
    ⟨"PullRequestEvent", "a/b", 900⟩ (by decide)

/-- Claim C9: the metric computations are read-only and side-effect-free:
with the global `events` list threaded explicitly through each handler
body, the list after the call is exactly the list before it — in
particular `average_pr_time`'s sort acts on its local copy, not on the
store. -/
theorem metrics_leave_store_unchanged (events : List EventRecord) (repo : String)
    (now w : Int) (n : Nat) :
    (average_pr_time_run events repo).2 = events ∧
    (count_events_run events now w).2 = events ∧
    (top_repos_run events n).2 = events := by
  refine ⟨?_, rfl, rfl⟩
  simp only [average_pr_time_run]
  split <;> rfl
